import Mathlib

/-!
Verification of the mdb-reader browser viewer (two front-end variants:
`src/examples/browser/src/index.mjs` and the unnamed variant `src/unnamed/part_000`)
against its natural-language specification.

The JavaScript sources are shallowly embedded below: scalar cell values become the
inductive `JSValue`, rows become association lists from column name to value, the
external mdb-reader library handle becomes an explicit structure of (possibly
failing) accessors, browser storage (localStorage / IndexedDB) becomes an explicit
`StorageState` record, and exceptions become `Option`.
-/

/-- A scalar cell value as produced by the mdb-reader collaborator: string, number,
boolean or null (JS numbers are modelled as integers; the claims under study do not
depend on fractional values). -/
inductive JSValue where
  | vNull : JSValue
  | vNum : Int → JSValue
  | vStr : String → JSValue
  | vBool : Bool → JSValue
deriving DecidableEq, Repr

/-- A row is a mapping from column name to cell value (a JS object), modelled as an
association list in key-insertion order. -/
abbrev Row : Type := List (String × JSValue)

/-- JS strict equality `===` on scalar cell values: true exactly when the type and
the value both agree; never coerces across types. Embeds the comparisons
`row[col] === value` (click path, part_000 line 351) and `v === value` (hover
path, part_000 line 380). -/
def jsStrictEq : JSValue → JSValue → Bool
  | JSValue.vNull, JSValue.vNull => true
  | JSValue.vNum a, JSValue.vNum b => a == b
  | JSValue.vStr a, JSValue.vStr b => a == b
  | JSValue.vBool a, JSValue.vBool b => a == b
  | _, _ => false

/-- JS property read `row[name]`: the value at the first matching key, or
`none` for a JS `undefined`. -/
def rowLookup (row : Row) (name : String) : Option JSValue :=
  (List.find? (fun kv => kv.1 == name) row).map (fun kv => kv.2)

/-- The string a sampled cell contributes to width estimation
(`index.mjs` lines 321-327): `undefined`/`null` become the empty string, any other
value goes through JS `String(v)`. -/
def cellString (row : Row) (name : String) : String :=
  match rowLookup row name with
  | none => ""
  | some JSValue.vNull => ""
  | some (JSValue.vNum n) => toString n
  | some (JSValue.vStr s) => s
  | some (JSValue.vBool b) => if b then "true" else "false"

/-- The per-table accessor handed out by the external mdb-reader library
(`reader.getTable(name)`).  `getDataAll` is the zero-argument `t.getData()` call,
`getData o l` is `t.getData({rowOffset: o, rowLimit: l})`; a `none` result models a
thrown exception.  `rowCount` is the JS number the library reports. -/
structure TableHandle where
  rowCount : Int
  columnNames : List String
  getDataAll : Option (List Row)
  getData : Nat → Nat → Option (List Row)

/-- A table handle that accurately reports its row count and honors offset/limit
fetches without failing, over the underlying row list `rows` (the collaborator
contract assumed by the spec's sampling and display properties). -/
def TableHandle.Honest (t : TableHandle) (rows : List Row) : Prop :=
  t.rowCount = (rows.length : Int) ∧
  t.getDataAll = some rows ∧
  ∀ o l, t.getData o l = some ((rows.drop o).take l)

/-- The database handle exposed by the external library (`new MDBReader(buf)`):
`tableNames` is `reader.getTableNames()`, `getTable` returns `none` when
`reader.getTable(name)` (or reading its `rowCount` getter) throws. -/
structure MDBReader where
  tableNames : List String
  getTable : String → Option TableHandle

/-- One entry of the left-hand catalog grid: `{ name, rowCount }`. -/
structure CatalogEntry where
  name : String
  rowCount : Int
deriving DecidableEq, Repr

/-- `buildTablesList` (`index.mjs` lines 262-274, identical core in part_000 lines
127-138): for each enumerated name, open the table and read its row count, degrading
a per-table failure to `{name, rowCount: 0}` instead of aborting the catalog.  (The
part_000 variant additionally seeds an advisory `MSysRelationships` cache, which does
not affect the returned entries.) -/
def buildTablesList (r : MDBReader) : List CatalogEntry :=
  r.tableNames.map fun name =>
    match r.getTable name with
    | some t => { name := name, rowCount := t.rowCount }
    | none => { name := name, rowCount := 0 }

/-! ## Base64 and the two-tier persistence adapter (`index.mjs` lines 85-215)

`btoa`/`atob` and `FileReader.readAsDataURL` are browser built-ins; they are
modelled as standard base64 over byte lists (a byte is a `Nat` together with the
hypothesis that it is below 256). -/

/-- The standard base64 alphabet, index 0 to 63. -/
def b64Alphabet : List Char :=
  "ABCDEFGHIJKLMNOPQRSTUVWXYZabcdefghijklmnopqrstuvwxyz0123456789+/".data

/-- Character for a sextet. -/
def b64Char (n : Nat) : Char := b64Alphabet.getD n 'A'

/-- Sextet for a character; `none` models the `InvalidCharacterError` that `atob`
throws on a character outside the alphabet. -/
def b64Index (c : Char) : Option Nat := b64Alphabet.findIdx? (fun a => a == c)

/-- Standard padded base64 of a byte list: models the encoding performed by
`fileToBase64` (`index.mjs` lines 248-260, via `readAsDataURL`) and by
`arrayBufferToBase64` + `btoa` (part_000 lines 49-57). -/
def b64EncodeBytes : List Nat → List Char
  | [] => []
  | [b0] => [b64Char (b0 / 4), b64Char (b0 % 4 * 16), '=', '=']
  | [b0, b1] => [b64Char (b0 / 4), b64Char (b0 % 4 * 16 + b1 / 16), b64Char (b1 % 16 * 4), '=']
  | b0 :: b1 :: b2 :: rest =>
    b64Char (b0 / 4) :: b64Char (b0 % 4 * 16 + b1 / 16) ::
      b64Char (b1 % 16 * 4 + b2 / 64) :: b64Char (b2 % 64) :: b64EncodeBytes rest

/-- Base64 decoding to bytes: models `base64ToArrayBuffer` (`index.mjs` lines
160-168 and part_000 lines 59-67), i.e. `atob` followed by the `charCodeAt` loop;
`none` models a thrown decode error. -/
def b64DecodeBytes : List Char → Option (List Nat)
  | [] => some []
  | c0 :: c1 :: c2 :: c3 :: rest =>
    (b64Index c0).bind fun s0 =>
      (b64Index c1).bind fun s1 =>
        if c2 = '=' then
          if c3 = '=' ∧ rest = [] then some [s0 * 4 + s1 / 16] else none
        else
          (b64Index c2).bind fun s2 =>
            if c3 = '=' then
              if rest = [] then some [s0 * 4 + s1 / 16, s1 % 16 * 16 + s2 / 4] else none
            else
              (b64Index c3).bind fun s3 =>
                (b64DecodeBytes rest).map
                  (fun bs => (s0 * 4 + s1 / 16) :: (s1 % 16 * 16 + s2 / 4) :: (s2 % 4 * 64 + s3) :: bs)
  | _ => none

/-- Encoding as a `String` (the value put under the `mdb-base64` key). -/
def bytesToBase64 (bs : List Nat) : String := String.mk (b64EncodeBytes bs)

/-- Decoding from the stored `String`. -/
def base64ToBytes (s : String) : Option (List Nat) := b64DecodeBytes s.data

/-- The two browser-local storage tiers: the localStorage keys `mdb-base64` and
`mdb-name`, and the single IndexedDB record `{file, name}` under the fixed key
`file` of object store `files`. -/
structure StorageState where
  lsBase64 : Option String
  lsName : Option String
  idbFile : Option (List Nat × String)
deriving DecidableEq, Repr

/-- `saveFile` (`index.mjs` lines 170-199).  `lsWriteFails` models
`localStorage.setItem` throwing (the quota-exceeded condition of `isQuotaError`, or
any other storage error: both branches of the source fall back identically);
`idbWriteFails` models `idbSaveFile` rejecting.  Returns the backend name and the
updated storage, or `none` when the save as a whole throws. -/
def saveFile (lsWriteFails idbWriteFails : Bool) (st : StorageState)
    (bytes : List Nat) (name : String) : Option (String × StorageState) :=
  let base64 := bytesToBase64 bytes
  if lsWriteFails then
    if idbWriteFails then none
    else some ("indexedDB", { st with idbFile := some (bytes, name) })
  else
    some ("localStorage",
      { lsBase64 := some base64, lsName := some name, idbFile := st.idbFile })

/-- The IndexedDB read (`idbLoadFile`, `index.mjs` lines 125-147): the stored blob's
bytes and name, or `none` when no record exists. -/
def loadIdb (st : StorageState) : Option (List Nat × Option String) :=
  st.idbFile.map (fun fn => (fn.1, some fn.2))

/-- `loadStoredFile` (`index.mjs` lines 201-215): read the fast store first —
note the JS truthiness test `if (base64)`, under which an empty stored string is
treated as absent — decode it, and otherwise fall back to the IndexedDB record.
A decode throw propagates to the caller, which treats it as no restore (`none`). -/
def loadStoredFile (st : StorageState) : Option (List Nat × Option String) :=
  match st.lsBase64 with
  | some b64 =>
    if b64 = "" then loadIdb st
    else (base64ToBytes b64).map (fun bs => (bs, st.lsName))
  | none => loadIdb st

/-! ## Row sampler (`index.mjs` lines 291-314) -/

/-- The block-fetch loop of `sampleRowsForTable`: iterate the block indices `l`
(`for (let i = 0; i < blocks; i++)` with `blocks = 20`), breaking once the
accumulated rows reach `sampleSize`, fetching each block at offset
`Math.floor((i * rc) / blocks)` with limit `blockSize`, and skipping a block whose
fetch throws. -/
def sampleBlocksLoop (t : TableHandle) (rc sampleSize blockSize : Nat) :
    List Nat → List Row → List Row
  | [], acc => acc
  | i :: is, acc =>
    if sampleSize ≤ acc.length then acc
    else
      sampleBlocksLoop t rc sampleSize blockSize is
        ((t.getData (i * rc / 20) blockSize).elim acc (fun chunk => acc ++ chunk))

/-- `sampleRowsForTable` (`index.mjs` lines 291-314): a table at or below the
sample size returns all its rows (`t.getData()`); a larger table is sampled in 20
blocks of `Math.ceil(sampleSize / 20)` rows each, and the concatenation is trimmed
to `sampleSize`.  The default `sampleSize` at both call sites is 1000. -/
def sampleRowsForTable (t : TableHandle) (sampleSize : Nat) : Option (List Row) :=
  if t.rowCount ≤ (sampleSize : Int) then t.getDataAll
  else
    let rc := t.rowCount.toNat
    let blockSize := (sampleSize + 19) / 20
    some ((sampleBlocksLoop t rc sampleSize blockSize (List.range 20) []).take sampleSize)

/-- The table row positions the 20 sampling blocks cover at the default sample size
1000 (block size 50): block `i` covers positions `i * rc / 20` to
`i * rc / 20 + 49`. -/
def sampledPositions (rc : Nat) : List Nat :=
  (List.range 20).flatMap (fun i => List.range' (i * rc / 20) 50)

/-! ## Column width estimator (`index.mjs` lines 316-350) -/

/-- The per-column length list `lengths[name]` of `computeColumnWidths`: one string
length per sampled row, in row order, with `null`/`undefined` cells counted as the
empty string. -/
def colLengths (sampleRows : List Row) (name : String) : List Nat :=
  sampleRows.map (fun row => (cellString row name).length)

/-- `percentile75` (`index.mjs` lines 331-336): 0 for an empty sample, otherwise the
element at index `Math.floor(sorted.length * 0.75)` of the ascending sort.  For a
natural count `n`, `Math.floor(n * 0.75) = 3 * n / 4` in truncating division (0.75 is
a dyadic rational, so the JS float product is exact). -/
def percentile75 (arr : List Nat) : Nat :=
  if arr.length = 0 then 0
  else (List.insertionSort (fun a b => a ≤ b) arr).getD (arr.length * 3 / 4) 0

/-- `computeColumnWidths` (`index.mjs` lines 316-350): per column, width is
`Math.ceil(len75 * charWidth) + cellPadding` clamped to `[minWidth, maxWidth]`, with
`charWidth = 12`, `cellPadding = 24`, `minWidth = 60`, `maxWidth = 800`.  Since
`len75 * 12` is already an integer, `Math.ceil` is the identity on it. -/
def computeColumnWidths (columnNames : List String) (sampleRows : List Row) :
    List (String × Nat) :=
  columnNames.map fun name =>
    (name, min (max (percentile75 (colLengths sampleRows name) * 12 + 24) 60) 800)

/-! ## Cross-table value matcher (part_000 lines 339-387) -/

/-- Whether any cell of the row is strictly equal to the target value: the inner
`for (const col of Object.keys(row)) if (row[col] === value)` loop of `followValue`,
and the `Object.values(r).some(v => v === value)` test of the hover path. -/
def rowHasValue (row : Row) (v : JSValue) : Bool :=
  row.any (fun kv => jsStrictEq kv.2 v)

/-- Whether the click-path scan finds the value in the named table: fetch up to
10000 rows (`tbl.getData({ rowLimit: 10000 })`) and scan every cell; a missing
handle or a throwing fetch contributes no match (the `catch` clause). -/
def tableHasValue (tableMap : String → Option TableHandle) (name : String)
    (v : JSValue) : Bool :=
  match tableMap name with
  | none => false
  | some tbl =>
    match tbl.getData 0 10000 with
    | none => false
    | some data => data.any (fun row => rowHasValue row v)

/-- `followValue` (part_000 lines 339-369): walk the catalog entries in order,
skip the origin table, and navigate to the first table containing a strictly equal
cell; `none` models the `No matching value found in other tables` outcome. -/
def followValue (tables : List CatalogEntry) (tableMap : String → Option TableHandle)
    (originTable : String) (v : JSValue) : Option String :=
  match tables with
  | [] => none
  | t :: ts =>
    if t.name == originTable then followValue ts tableMap originTable v
    else if tableHasValue tableMap t.name v then some t.name
    else followValue ts tableMap originTable v

/-- Whether the hover-path scan finds the value in the named table: fetch up to 200
rows (`tbl.getData({ rowLimit: 200 })`) and scan every cell. -/
def hoverTableHasValue (tableMap : String → Option TableHandle) (name : String)
    (v : JSValue) : Bool :=
  match tableMap name with
  | none => false
  | some tbl =>
    match tbl.getData 0 200 with
    | none => false
    | some data => data.any (fun row => rowHasValue row v)

/-- `highlightTablesReferencingValue` (part_000 lines 371-387): the names of the
catalog tables that receive the `referenced-table` highlight — every table other
than the origin whose first 200 rows contain a strictly equal cell. -/
def highlightTablesReferencingValue (tables : List CatalogEntry)
    (tableMap : String → Option TableHandle) (v : JSValue) (originTable : String) :
    List String :=
  (tables.filter
    (fun t => !(t.name == originTable) && hoverTableHasValue tableMap t.name v)).map
    (fun t => t.name)

/-- The first-match specification the click path is compared with: among the
non-origin tables in catalog order, the first one whose scan finds the value. -/
def firstMatchSpec (tables : List CatalogEntry) (tableMap : String → Option TableHandle)
    (originTable : String) (v : JSValue) : Option String :=
  ((tables.filter (fun t => !(t.name == originTable))).find?
    (fun t => tableHasValue tableMap t.name v)).map (fun t => t.name)

/-! ## Display fetch and drop boundary -/

/-- The display fetch of the part_000 variant (`selectTable`, line 201):
`tbl.getData({ rowLimit: 5000 })`. -/
def selectTableDisplayRows (t : TableHandle) : Option (List Row) :=
  t.getData 0 5000

/-- The display fetch of the index.mjs variant (`showTable`, line 361):
`t.getData()` with no limit — all rows. -/
def showTableDisplayRows (t : TableHandle) : Option (List Row) :=
  t.getDataAll

/-- Case-insensitive suffix test on file names, over the character list (models JS
`name.toLowerCase().endsWith(suffix)`; the names in play are ASCII). -/
def lowerEndsWith (name suffix : String) : Bool :=
  suffix.data.isSuffixOf (name.data.map Char.toLower)

/-- `isAllowedFileName` (`index.mjs` lines 414-418): reject a falsy (empty) name,
otherwise accept exactly the suffixes `.mdb` and `.accdb` case-insensitively. -/
def isAllowedFileName (name : String) : Bool :=
  if name = "" then false
  else lowerEndsWith name ".mdb" || lowerEndsWith name ".accdb"

/-- The application state a successful drop mutates: the loaded (and persisted,
catalogued) file.  `none` means no file has been loaded. -/
structure AppState where
  loaded : Option (String × List Nat)
deriving DecidableEq, Repr

/-- The index.mjs window drop handler (lines 446-460) on a single dropped file:
an allowed name is handed to `handleFile` (its load/persist/catalog effects
collapsed into the new state), a disallowed one leaves the state unchanged and
briefly shows the `drag-invalid` indicator (the returned Bool). -/
def windowDropIndex (st : AppState) (fileName : String) (bytes : List Nat) :
    AppState × Bool :=
  if isAllowedFileName fileName then ({ loaded := some (fileName, bytes) }, false)
  else (st, true)

/-- The part_000 window drop handler (lines 34-42) on a single dropped file: every
file is handed to `loadFile`, with no extension check and no invalid indicator. -/
def windowDropPart0 (_st : AppState) (fileName : String) (bytes : List Nat) :
    AppState × Bool :=
  ({ loaded := some (fileName, bytes) }, false)

/-! ## Concrete fixtures used by witnesses, counterexamples and scenario claims -/

/-- Table `A` of the value-follow scenario: one row whose `x` cell holds the number 42. -/
def demoRowA : Row := [("x", JSValue.vNum 42)]

/-- Handle for table `A`. -/
def demoTableA : TableHandle :=
  { rowCount := 1, columnNames := ["x"], getDataAll := some [demoRowA],
    getData := fun o l => some (([demoRowA].drop o).take l) }

/-- Table `B` holding the string cell `"42"`. -/
def demoRowBStr : Row := [("y", JSValue.vStr "42")]

/-- Handle for the string-valued table `B`. -/
def demoTableBStr : TableHandle :=
  { rowCount := 1, columnNames := ["y"], getDataAll := some [demoRowBStr],
    getData := fun o l => some (([demoRowBStr].drop o).take l) }

/-- Table `B` holding the number cell `42`. -/
def demoRowBNum : Row := [("y", JSValue.vNum 42)]

/-- Handle for the number-valued table `B`. -/
def demoTableBNum : TableHandle :=
  { rowCount := 1, columnNames := ["y"], getDataAll := some [demoRowBNum],
    getData := fun o l => some (([demoRowBNum].drop o).take l) }

/-- Two-table catalog for the scenario. -/
def demoCatalog : List CatalogEntry :=
  [{ name := "A", rowCount := 1 }, { name := "B", rowCount := 1 }]

/-- Handle cache where `B` holds the string `"42"`. -/
def demoMapStr : String → Option TableHandle := fun n =>
  if n = "A" then some demoTableA else if n = "B" then some demoTableBStr else none

/-- Handle cache where `B` holds the number `42`. -/
def demoMapNum : String → Option TableHandle := fun n =>
  if n = "A" then some demoTableA else if n = "B" then some demoTableBNum else none

/-- Rows of the well-behaved catalog-witness table. -/
def wRows2 : List Row := [[("id", JSValue.vNum 1)], [("id", JSValue.vNum 2)]]

/-- A well-behaved table handle with two rows. -/
def wTableGood : TableHandle :=
  { rowCount := 2, columnNames := ["id"], getDataAll := some wRows2,
    getData := fun o l => some ((wRows2.drop o).take l) }

/-- A reader enumerating one good table and one whose open fails. -/
def wReader : MDBReader :=
  { tableNames := ["Good", "Bad"],
    getTable := fun n => if n = "Good" then some wTableGood else none }

/-- Three concrete rows for the sampling witness. -/
def wRows3 : List Row :=
  [[("a", JSValue.vNum 1)], [("a", JSValue.vNum 2)], [("a", JSValue.vNum 3)]]

/-- An honest three-row table handle. -/
def wTable3 : TableHandle :=
  { rowCount := 3, columnNames := ["a"], getDataAll := some wRows3,
    getData := fun o l => some ((wRows3.drop o).take l) }

/-- Rows of a table one above the default sampling ceiling (1001 rows). -/
def wRows1001 : List Row := List.replicate 1001 []

/-- An honest table handle one row above the default sampling ceiling. -/
def wTable1001 : TableHandle :=
  { rowCount := 1001, columnNames := [], getDataAll := some wRows1001,
    getData := fun o l => some ((wRows1001.drop o).take l) }

/-- Rows of a large table (50000 rows), as in the spec's `Orders` display scenario. -/
def bigRows : List Row := List.replicate 50000 []

/-- An honest 50000-row table handle. -/
def bigTable : TableHandle :=
  { rowCount := 50000, columnNames := [], getDataAll := some bigRows,
    getData := fun o l => some ((bigRows.drop o).take l) }

/-- A storage state left by an earlier localStorage save of the one-byte file `[1]`
named `old.mdb`. -/
def staleState : StorageState :=
  { lsBase64 := some (bytesToBase64 [1]), lsName := some "old.mdb", idbFile := none }

/-- An empty storage state (first run). -/
def cleanState : StorageState := { lsBase64 := none, lsName := none, idbFile := none }

/-- The storage state after saving the bytes `[1, 2, 3]` under `a.mdb` to the fast
store from a clean state. -/
def savedState : StorageState :=
  { lsBase64 := some (bytesToBase64 [1, 2, 3]), lsName := some "a.mdb", idbFile := none }

/-- The storage state after saving the empty file to the fast store. -/
def emptySavedState : StorageState :=
  { lsBase64 := some "", lsName := some "empty.mdb", idbFile := none }

/-- The storage state after a quota-forced IndexedDB save of `[2]` (`new.mdb`) on
top of `staleState`. -/
def staleAfterIdbState : StorageState :=
  { lsBase64 := some (bytesToBase64 [1]), lsName := some "old.mdb",
    idbFile := some ([2], "new.mdb") }

/-! ## Lemmas: base64 round trip -/

/-- Looking up the character of a sextet recovers the sextet. -/
theorem b64Index_b64Char : ∀ n < 64, b64Index (b64Char n) = some n := by decide

/-- No alphabet character is the padding character. -/
theorem b64Char_ne_pad : ∀ n < 64, ¬(b64Char n = '=') := by decide

/-- Decoding inverts encoding on byte lists. -/
theorem b64_roundtrip : ∀ (bs : List Nat), (∀ b ∈ bs, b < 256) →
    b64DecodeBytes (b64EncodeBytes bs) = some bs := by
  intro bs
  induction bs using b64EncodeBytes.induct with
  | case1 => intro _; rfl
  | case2 b0 =>
    intro h
    have hb0 : b0 < 256 := h b0 (by simp)
    simp only [b64EncodeBytes, b64DecodeBytes]
    rw [b64Index_b64Char (b0 / 4) (by omega), b64Index_b64Char (b0 % 4 * 16) (by omega)]
    simp only [Option.some_bind, and_self, if_true]
    simp only [Option.some.injEq, List.cons.injEq, and_true]
    omega
  | case3 b0 b1 =>
    intro h
    have hb0 : b0 < 256 := h b0 (by simp)
    have hb1 : b1 < 256 := h b1 (by simp)
    simp only [b64EncodeBytes, b64DecodeBytes]
    rw [b64Index_b64Char (b0 / 4) (by omega),
      b64Index_b64Char (b0 % 4 * 16 + b1 / 16) (by omega)]
    simp only [Option.some_bind]
    rw [if_neg (b64Char_ne_pad (b1 % 16 * 4) (by omega)),
      b64Index_b64Char (b1 % 16 * 4) (by omega)]
    simp only [Option.some_bind, and_self, if_true]
    simp only [Option.some.injEq, List.cons.injEq, and_true]
    constructor <;> omega
  | case4 b0 b1 b2 rest ih =>
    intro h
    have hb0 : b0 < 256 := h b0 (by simp)
    have hb1 : b1 < 256 := h b1 (by simp)
    have hb2 : b2 < 256 := h b2 (by simp)
    have hrest : ∀ b ∈ rest, b < 256 := fun b hb => h b (by simp [hb])
    simp only [b64EncodeBytes, b64DecodeBytes]
    rw [b64Index_b64Char (b0 / 4) (by omega),
      b64Index_b64Char (b0 % 4 * 16 + b1 / 16) (by omega)]
    simp only [Option.some_bind]
    rw [if_neg (b64Char_ne_pad (b1 % 16 * 4 + b2 / 64) (by omega)),
      b64Index_b64Char (b1 % 16 * 4 + b2 / 64) (by omega)]
    simp only [Option.some_bind]
    rw [if_neg (b64Char_ne_pad (b2 % 64) (by omega)),
      b64Index_b64Char (b2 % 64) (by omega)]
    simp only [Option.some_bind, and_self, if_true]
    rw [ih hrest]
    simp only [Option.map_some', Option.some.injEq, List.cons.injEq, and_true]
    refine ⟨by omega, by omega, by omega⟩

/-- The encoding of a nonempty byte list is a nonempty character list. -/
theorem b64EncodeBytes_ne_nil (b : Nat) (bs : List Nat) : b64EncodeBytes (b :: bs) ≠ [] := by
  match bs with
  | [] => simp [b64EncodeBytes]
  | [b1] => simp [b64EncodeBytes]
  | b1 :: b2 :: rest => simp [b64EncodeBytes]

/-- The encoding of a nonempty byte list is not the empty string (so the JS
truthiness test in `loadStoredFile` does not skip it). -/
theorem bytesToBase64_ne_empty (b : Nat) (bs : List Nat) : bytesToBase64 (b :: bs) ≠ "" := by
  intro hEq
  exact b64EncodeBytes_ne_nil b bs (congrArg String.data hEq)

/-- C1 (amended): for every nonempty byte sequence of genuine bytes and every file
name, a successful `saveFile` followed by `loadStoredFile` returns the original
bytes and name byte-for-byte, on either backend — provided that when the save falls
back to the transactional store, the fast store holds no leftover record from an
earlier save.  (The counterexample `c1_roundtrip_counterexample` shows both side
conditions are necessary: an empty file round-trips to nothing because of the JS
truthiness test on the stored base64 text, and a stale fast-store record shadows an
IndexedDB fallback save on restore.) -/
theorem c1_roundtrip_amended (bytes : List Nat) (name : String) (st : StorageState)
    (lsWriteFails idbWriteFails : Bool) (backend : String) (st' : StorageState)
    (hbytes : ∀ b ∈ bytes, b < 256) (hne : bytes ≠ [])
    (hclean : lsWriteFails = true → st.lsBase64 = none)
    (hsave : saveFile lsWriteFails idbWriteFails st bytes name = some (backend, st')) :
    loadStoredFile st' = some (bytes, some name) := by
  cases lsWriteFails with
  | false =>
    simp only [saveFile, Bool.false_eq_true, if_false, Option.some.injEq, Prod.mk.injEq] at hsave
    obtain ⟨-, hst⟩ := hsave
    subst hst
    obtain ⟨b, bs, rfl⟩ : ∃ b bs, bytes = b :: bs := by
      cases bytes with
      | nil => exact absurd rfl hne
      | cons b bs => exact ⟨b, bs, rfl⟩
    simp only [loadStoredFile, if_neg (bytesToBase64_ne_empty b bs)]
    rw [show base64ToBytes (bytesToBase64 (b :: bs)) = some (b :: bs) from by
      rw [base64ToBytes, bytesToBase64]
      exact b64_roundtrip (b :: bs) hbytes]
    rfl
  | true =>
    cases idbWriteFails with
    | true => simp [saveFile] at hsave
    | false =>
      simp only [saveFile, if_true, Bool.false_eq_true, if_false, Option.some.injEq,
        Prod.mk.injEq] at hsave
      obtain ⟨-, hst⟩ := hsave
      subst hst
      simp [loadStoredFile, loadIdb, hclean rfl]

/-- C1 witness: a three-byte file saved to the fast store from a clean state
restores byte-for-byte. -/
theorem c1_roundtrip_witness :
    loadStoredFile savedState = some ([1, 2, 3], some "a.mdb") :=
  c1_roundtrip_amended [1, 2, 3] "a.mdb" cleanState false false "localStorage" savedState
    (by decide) (by decide) (by simp) rfl

/-- C1 counterexample: the round trip fails as universally stated.  (a) Saving the
empty file succeeds on the fast store, but restore finds nothing: the stored base64
text is the empty string, which the JS truthiness test `if (base64)` treats as
absent.  (b) From a state holding an earlier fast-store record, a quota-forced
IndexedDB save succeeds, but restore reads the stale fast-store record — the old
file's bytes, not the saved ones. -/
theorem c1_roundtrip_counterexample :
    (saveFile false false cleanState [] "empty.mdb" = some ("localStorage", emptySavedState) ∧
      loadStoredFile emptySavedState = none) ∧
    (saveFile true false staleState [2] "new.mdb" = some ("indexedDB", staleAfterIdbState) ∧
      loadStoredFile staleAfterIdbState = some ([1], some "old.mdb") ∧
      ([1] : List Nat) ≠ [2]) := by
  refine ⟨⟨rfl, rfl⟩, ⟨rfl, ?_, by decide⟩⟩
  decide

/-- C2: when the fast-store write fails with the quota-exceeded condition and the
transactional write goes through, `saveFile` still succeeds, stores the file bytes
and name in the IndexedDB record, and reports the fallback backend `indexedDB`,
which is not the primary `localStorage`. -/
theorem c2_quota_fallback (st : StorageState) (bytes : List Nat) (name : String) :
    saveFile true false st bytes name =
      some ("indexedDB", { st with idbFile := some (bytes, name) }) ∧
    ("indexedDB" : String) ≠ "localStorage" :=
  ⟨rfl, by decide⟩

/-- C3: for every database handle whose enumeration returns n names, the catalog
has exactly n entries in enumeration order; entry i carries the i-th name, with the
table's row count when its open and count succeed and 0 when they fail, without
aborting the rest; and — when the library honors its non-negative row-count
contract — no entry's rowCount is negative. -/
theorem c3_catalog_isolation (r : MDBReader)
    (hpos : ∀ name t, r.getTable name = some t → 0 ≤ t.rowCount) :
    (buildTablesList r).length = r.tableNames.length ∧
    (∀ i, i < r.tableNames.length →
      (buildTablesList r).getD i { name := "", rowCount := 0 } =
        match r.getTable (r.tableNames.getD i "") with
        | some t => { name := r.tableNames.getD i "", rowCount := t.rowCount }
        | none => { name := r.tableNames.getD i "", rowCount := 0 }) ∧
    (∀ e ∈ buildTablesList r, 0 ≤ e.rowCount) := by
  have hlen : (buildTablesList r).length = r.tableNames.length := by
    simp [buildTablesList]
  refine ⟨hlen, ?_, ?_⟩
  · intro i hi
    rw [List.getD_eq_getElem _ _ (show i < (buildTablesList r).length from hlen ▸ hi),
      List.getD_eq_getElem _ _ hi]
    simp [buildTablesList]
  · intro e he
    simp only [buildTablesList, List.mem_map] at he
    obtain ⟨name, hmem, hval⟩ := he
    cases hg : r.getTable name with
    | none =>
      rw [hg] at hval
      rw [← hval]
    | some t =>
      rw [hg] at hval
      rw [← hval]
      exact hpos name t hg

/-- C3 witness: the catalog built over a reader with one good table and one failing
table, at a concrete input. -/
theorem c3_catalog_witness :
    (buildTablesList wReader).length = wReader.tableNames.length ∧
    (∀ i, i < wReader.tableNames.length →
      (buildTablesList wReader).getD i { name := "", rowCount := 0 } =
        match wReader.getTable (wReader.tableNames.getD i "") with
        | some t => { name := wReader.tableNames.getD i "", rowCount := t.rowCount }
        | none => { name := wReader.tableNames.getD i "", rowCount := 0 }) ∧
    (∀ e ∈ buildTablesList wReader, 0 ≤ e.rowCount) :=
  c3_catalog_isolation wReader (by
    intro n t h
    by_cases hn : n = "Good"
    · subst hn
      simp [wReader] at h
      rw [← h]
      decide
    · simp [wReader, hn] at h)

/-! ## Lemmas: the sampling loop -/

/-- For a block index below 20 and a table strictly larger than the sample size,
the block offset leaves room for a full block of `(s + 19) / 20` rows. -/
theorem sample_offset_le {rc s i : Nat} (hi : i < 20) (hrc : s < rc) :
    i * rc / 20 + (s + 19) / 20 ≤ rc := by
  have h1 : i * rc ≤ 19 * rc := Nat.mul_le_mul_right rc (by omega)
  have h2 : i * rc / 20 ≤ 19 * rc / 20 := Nat.div_le_div_right h1
  have h3 : 19 * rc / 20 + (s + 19) / 20 ≤ rc := by omega
  omega

/-- When every listed block fetch yields a full block, the loop accumulates at
least `s` rows, provided full blocks over the listed indices suffice. -/
theorem sampleBlocksLoop_length_ge (t : TableHandle) (rc s bs : Nat) :
    ∀ (l : List Nat) (acc : List Row),
      (∀ i ∈ l, ∃ ch, t.getData (i * rc / 20) bs = some ch ∧ ch.length = bs) →
      s ≤ acc.length + bs * l.length →
      s ≤ (sampleBlocksLoop t rc s bs l acc).length := by
  intro l
  induction l with
  | nil =>
    intro acc _ hlen
    simpa [sampleBlocksLoop] using hlen
  | cons i is ih =>
    intro acc hch hlen
    simp only [sampleBlocksLoop]
    by_cases hb : s ≤ acc.length
    · rw [if_pos hb]; exact hb
    · rw [if_neg hb]
      obtain ⟨ch, hg, hchlen⟩ := hch i (by simp)
      rw [hg, Option.elim_some]
      apply ih
      · intro j hj
        exact hch j (by simp [hj])
      · simp only [List.length_cons, Nat.mul_succ] at hlen
        simp only [List.length_append, hchlen]
        omega

/-- When every listed block fetch succeeds and the budget is not yet exhausted,
the loop is exactly the accumulated rows followed by the listed chunks in order. -/
theorem sampleBlocksLoop_eq_flatMap (t : TableHandle) (rc s bs : Nat)
    (chunk : Nat → List Row) :
    ∀ (l : List Nat) (acc : List Row),
      (∀ i ∈ l, t.getData (i * rc / 20) bs = some (chunk i) ∧ (chunk i).length = bs) →
      acc.length + bs * l.length ≤ s →
      sampleBlocksLoop t rc s bs l acc = acc ++ l.flatMap chunk := by
  intro l
  induction l with
  | nil =>
    intro acc _ _
    simp [sampleBlocksLoop]
  | cons i is ih =>
    intro acc hch hlen
    simp only [List.length_cons, Nat.mul_succ] at hlen
    simp only [sampleBlocksLoop]
    obtain ⟨hg, hchlen⟩ := hch i (by simp)
    by_cases hb : s ≤ acc.length
    · have hbs : bs = 0 := by omega
      have hnil : ∀ j ∈ i :: is, chunk j = [] := by
        intro j hj
        have := (hch j hj).2
        rw [hbs] at this
        exact List.eq_nil_of_length_eq_zero this
      rw [if_pos hb]
      have : (i :: is).flatMap chunk = [] := by
        rw [List.flatMap_eq_nil_iff]
        exact hnil
      rw [this, List.append_nil]
    · rw [if_neg hb, hg, Option.elim_some]
      rw [ih (acc ++ chunk i) (fun j hj => hch j (by simp [hj]))
        (by simp only [List.length_append, hchlen]; omega)]
      simp [List.flatMap_cons, List.append_assoc]

/-- Dropping to an offset and taking a full window reads exactly the rows at the
window's positions. -/
theorem drop_take_eq_map_getD (rows : List Row) :
    ∀ (k o : Nat), o + k ≤ rows.length →
      (rows.drop o).take k = (List.range' o k).map (fun p => rows.getD p []) := by
  intro k
  induction k with
  | zero => intro o _; simp
  | succ n ih =>
    intro o ho
    rw [List.range'_succ, List.map_cons,
      List.drop_eq_getElem_cons (show o < rows.length by omega), List.take_succ_cons,
      List.getD_eq_getElem rows [] (show o < rows.length by omega)]
    congr 1
    exact ih (o + 1) (by omega)

/-- Consecutive sampling-block offsets of a table above the default 1000-row
sample size are at least 50 rows apart. -/
theorem sample_offset_spacing {rc : Nat} (hrc : 1000 < rc) {i j : Nat} (hij : i < j) :
    i * rc / 20 + 50 ≤ j * rc / 20 := by
  have h1 : (i + 1) * rc / 20 ≤ j * rc / 20 :=
    Nat.div_le_div_right (Nat.mul_le_mul_right rc (by omega))
  have h2 : i * rc / 20 + 50 ≤ (i + 1) * rc / 20 := by
    rw [Nat.succ_mul]
    generalize i * rc = a
    omega
  omega

/-- C4: for every table handle that accurately reports its row count and honors
offset/limit fetches without failing: at or below the sample size,
`sampleRowsForTable` returns all rows unsampled; above it, it returns exactly
`sampleSize` rows. -/
theorem c4_sampling_boundary (t : TableHandle) (rows : List Row) (s : Nat)
    (h : TableHandle.Honest t rows) :
    (t.rowCount ≤ ((s : Nat) : Int) → sampleRowsForTable t s = some rows) ∧
    (((s : Nat) : Int) < t.rowCount →
      ∃ res, sampleRowsForTable t s = some res ∧ res.length = s) := by
  obtain ⟨hrc, hall, hget⟩ := h
  have hrcn : t.rowCount.toNat = rows.length := by rw [hrc]; omega
  constructor
  · intro hle
    rw [sampleRowsForTable, if_pos hle]
    exact hall
  · intro hlt
    have hsrc : s < rows.length := by rw [hrc] at hlt; exact_mod_cast hlt
    simp only [sampleRowsForTable, if_neg (not_le.mpr hlt)]
    refine ⟨_, rfl, ?_⟩
    rw [List.length_take]
    have hge : s ≤
        (sampleBlocksLoop t t.rowCount.toNat s ((s + 19) / 20) (List.range 20) []).length := by
      apply sampleBlocksLoop_length_ge
      · intro i hi
        refine ⟨(rows.drop (i * t.rowCount.toNat / 20)).take ((s + 19) / 20),
          hget _ _, ?_⟩
        have h20 : i < 20 := List.mem_range.mp hi
        have hoff : i * t.rowCount.toNat / 20 + (s + 19) / 20 ≤ t.rowCount.toNat := by
          apply sample_offset_le h20
          omega
        rw [List.length_take, List.length_drop]
        omega
      · simp only [List.length_nil, List.length_range]
        omega
    omega

/-- C4 witness: a concrete honest three-row table at sample size 2. -/
theorem c4_sampling_witness :
    (wTable3.rowCount ≤ ((2 : Nat) : Int) → sampleRowsForTable wTable3 2 = some wRows3) ∧
    (((2 : Nat) : Int) < wTable3.rowCount →
      ∃ res, sampleRowsForTable wTable3 2 = some res ∧ res.length = 2) :=
  c4_sampling_boundary wTable3 wRows3 2 ⟨rfl, rfl, fun _ _ => rfl⟩

/-- C10: for a table above the default 1000-row sample size with honest fetches,
the 20 sampling-block offsets are pairwise at least blockSize = 50 rows apart, the
blocks cover pairwise-disjoint row ranges, the sampled row positions contain no
duplicate, and the returned sample is exactly the rows at those positions. -/
theorem c10_sampling_positions_nodup (t : TableHandle) (rows : List Row) (rc : Nat)
    (h : TableHandle.Honest t rows) (hrc : rows.length = rc) (hbig : 1000 < rc) :
    (∀ i j, i < j → j < 20 → i * rc / 20 + 50 ≤ j * rc / 20) ∧
    (∀ i j, i < j → j < 20 →
      ∀ p, p ∈ List.range' (i * rc / 20) 50 → p ∉ List.range' (j * rc / 20) 50) ∧
    (sampledPositions rc).Nodup ∧
    sampleRowsForTable t 1000 = some ((sampledPositions rc).map (fun p => rows.getD p [])) := by
  obtain ⟨hrci, hall, hget⟩ := h
  have hdisj : ∀ i j : Nat, i < j →
      ∀ p, p ∈ List.range' (i * rc / 20) 50 → p ∉ List.range' (j * rc / 20) 50 := by
    intro i j hij p hpi hpj
    rw [List.mem_range'_1] at hpi hpj
    have := sample_offset_spacing hbig hij
    omega
  refine ⟨fun i j hij _ => sample_offset_spacing hbig hij,
    fun i j hij _ => hdisj i j hij, ?_, ?_⟩
  · rw [sampledPositions, List.nodup_flatMap]
    refine ⟨fun i _ => List.nodup_range' _ _, ?_⟩
    exact (List.pairwise_lt_range 20).imp fun hab p hp1 hp2 => hdisj _ _ hab p hp1 hp2
  · have hrcn : t.rowCount.toNat = rc := by rw [hrci, hrc]; omega
    have hrcI : ((1000 : Nat) : Int) < t.rowCount := by rw [hrci]; exact_mod_cast hrc ▸ hbig
    simp only [sampleRowsForTable, if_neg (not_le.mpr hrcI), hrcn]
    have hbsize : (1000 + 19) / 20 = 50 := by norm_num
    rw [hbsize]
    rw [sampleBlocksLoop_eq_flatMap t rc 1000 50
      (fun i => (List.range' (i * rc / 20) 50).map (fun p => rows.getD p [])) (List.range 20) []
      ?hblocks ?hbudget]
    case hblocks =>
      intro i hi
      have h20 : i < 20 := List.mem_range.mp hi
      have hoff : i * rc / 20 + 50 ≤ rc := by
        have := @sample_offset_le rc 1000 i h20 hbig
        omega
      constructor
      · rw [hget, drop_take_eq_map_getD rows 50 (i * rc / 20) (by omega)]
      · simp [List.length_range']
    case hbudget =>
      simp only [List.length_nil, List.length_range]
      omega
    rw [List.nil_append, sampledPositions, List.map_flatMap]
    have hlen : ((List.range 20).flatMap
        (fun i => (List.range' (i * rc / 20) 50).map (fun p => rows.getD p []))).length
        = 1000 := by
      rw [List.length_flatMap]
      simp [Function.comp_def, List.length_range']
    rw [List.take_of_length_le (le_of_eq hlen)]

/-- C10 witness: the concrete honest 1001-row table. -/
theorem c10_sampling_witness :
    (∀ i j, i < j → j < 20 → i * 1001 / 20 + 50 ≤ j * 1001 / 20) ∧
    (∀ i j, i < j → j < 20 →
      ∀ p, p ∈ List.range' (i * 1001 / 20) 50 → p ∉ List.range' (j * 1001 / 20) 50) ∧
    (sampledPositions 1001).Nodup ∧
    sampleRowsForTable wTable1001 1000 =
      some ((sampledPositions 1001).map (fun p => wRows1001.getD p [])) :=
  c10_sampling_positions_nodup wTable1001 wRows1001 1001
    ⟨by simp only [wTable1001, wRows1001, List.length_replicate, Nat.cast_ofNat], rfl,
      fun _ _ => rfl⟩
    (by simp only [wRows1001, List.length_replicate]) (by decide)

/-- Looking a column of the input up in the computed width map yields its computed
width. -/
theorem lookup_computeColumnWidths (columnNames : List String) (sampleRows : List Row)
    (name : String) (hmem : name ∈ columnNames) :
    List.lookup name (computeColumnWidths columnNames sampleRows) =
      some (min (max (percentile75 (colLengths sampleRows name) * 12 + 24) 60) 800) := by
  induction columnNames with
  | nil => cases hmem
  | cons n ns ih =>
    by_cases hn : n = name
    · subst hn
      simp [computeColumnWidths, List.lookup]
    · have hmem' : name ∈ ns := by
        rcases List.mem_cons.mp hmem with h | h
        · exact absurd h.symm hn
        · exact h
      have hne : (name == n) = false := by
        simp only [beq_eq_false_iff_ne, ne_eq]
        exact fun h => hn h.symm
      simp only [computeColumnWidths, List.map_cons, List.lookup_cons, hne]
      exact ih hmem'

/-- C5: for every list of column names and sample rows, the width of each listed
column is obtained by collecting the string lengths of its sampled cells
(null/undefined as the empty string), taking the element at index
floor(0.75 × count) of the ascending-sorted lengths (0 for an empty sample), and
clamping ceil(length × 12) + 24 to the bounds 60 and 800.  (The 75th-percentile
value times the integer pixel constant is an integer, so `Math.ceil` is the
identity on it.) -/
theorem c5_column_widths (columnNames : List String) (sampleRows : List Row)
    (name : String) (hmem : name ∈ columnNames) :
    ∃ sorted : List Nat,
      sorted.Perm (colLengths sampleRows name) ∧
      sorted.Sorted (fun a b => a ≤ b) ∧
      List.lookup name (computeColumnWidths columnNames sampleRows) =
        some (min (max ((if colLengths sampleRows name = [] then 0
            else sorted.getD (sampleRows.length * 3 / 4) 0) * 12 + 24) 60) 800) := by
  refine ⟨List.insertionSort (fun a b => a ≤ b) (colLengths sampleRows name),
    List.perm_insertionSort _ _, List.sorted_insertionSort _ _, ?_⟩
  have hlen : (colLengths sampleRows name).length = sampleRows.length := by
    simp [colLengths]
  have hper : percentile75 (colLengths sampleRows name) =
      (if colLengths sampleRows name = [] then 0
        else (List.insertionSort (fun a b => a ≤ b) (colLengths sampleRows name)).getD
          (sampleRows.length * 3 / 4) 0) := by
    rw [percentile75]
    by_cases hnil : colLengths sampleRows name = []
    · rw [if_pos (by rw [hnil]; rfl), if_pos hnil]
    · rw [if_neg (fun hh => hnil (List.length_eq_zero.mp hh)), if_neg hnil, hlen]
  rw [lookup_computeColumnWidths columnNames sampleRows name hmem, hper]

/-- C5 witness: a one-column, one-row sample at a concrete input. -/
theorem c5_column_widths_witness :
    ∃ sorted : List Nat,
      sorted.Perm (colLengths [demoRowA] "x") ∧
      sorted.Sorted (fun a b => a ≤ b) ∧
      List.lookup "x" (computeColumnWidths ["x"] [demoRowA]) =
        some (min (max ((if colLengths [demoRowA] "x" = [] then 0
            else sorted.getD ([demoRowA].length * 3 / 4) 0) * 12 + 24) 60) 800) :=
  c5_column_widths ["x"] [demoRowA] "x" (by simp)

/-- C6: both value-matching paths compare a cell to the target by JS strict
equality, which holds exactly when type and value agree; in particular the number
42 never matches the string cell `"42"` but does match the number cell 42, on the
click path (`followValue`) and the hover path (`highlightTablesReferencingValue`)
alike. -/
theorem c6_strict_equality_match :
    (∀ cell target : JSValue, jsStrictEq cell target = true ↔ cell = target) ∧
    jsStrictEq (JSValue.vStr "42") (JSValue.vNum 42) = false ∧
    jsStrictEq (JSValue.vNum 42) (JSValue.vNum 42) = true ∧
    followValue demoCatalog demoMapStr "A" (JSValue.vNum 42) = none ∧
    followValue demoCatalog demoMapNum "A" (JSValue.vNum 42) = some "B" ∧
    highlightTablesReferencingValue demoCatalog demoMapStr (JSValue.vNum 42) "A" = [] ∧
    highlightTablesReferencingValue demoCatalog demoMapNum (JSValue.vNum 42) "A" = ["B"] := by
  refine ⟨?_, by decide, by decide, by decide, by decide, by decide, by decide⟩
  intro cell target
  cases cell <;> cases target <;> simp [jsStrictEq]

/-- C7: the click-path scan equals the first-match specification over the
non-origin tables in catalog order (so it stops at the first hit and reports none
exactly when no other table matches), and appending further tables after a hit
cannot change the result; as a pure function of the catalog snapshot it returns
the same result on every run. -/
theorem c7_first_match_scan (tables more : List CatalogEntry)
    (tableMap : String → Option TableHandle) (origin : String) (v : JSValue) :
    followValue tables tableMap origin v = firstMatchSpec tables tableMap origin v ∧
    (followValue tables tableMap origin v = none ↔
      ∀ t ∈ tables, t.name ≠ origin → tableHasValue tableMap t.name v = false) ∧
    followValue (tables ++ more) tableMap origin v =
      (followValue tables tableMap origin v <|> followValue more tableMap origin v) := by
  have hmain : ∀ (l : List CatalogEntry),
      followValue l tableMap origin v = firstMatchSpec l tableMap origin v := by
    intro l
    induction l with
    | nil => rfl
    | cons t ts ih =>
      rw [followValue, firstMatchSpec, List.filter_cons]
      by_cases ht : (t.name == origin) = true
      · rw [if_pos ht]
        simp only [ht, Bool.not_true, if_false]
        exact ih
      · rw [if_neg ht]
        have htb : (!(t.name == origin)) = true := by
          simp [Bool.not_eq_true] at ht ⊢
          exact ht
        simp only [htb, if_true, List.find?_cons]
        by_cases hv : tableHasValue tableMap t.name v = true
        · rw [if_pos hv, hv]
          rfl
        · have hvf : tableHasValue tableMap t.name v = false := by
            simpa [Bool.not_eq_true] using hv
          rw [if_neg hv, hvf]
          exact ih
  have happ : ∀ (l : List CatalogEntry),
      followValue (l ++ more) tableMap origin v =
        (followValue l tableMap origin v <|> followValue more tableMap origin v) := by
    intro l
    induction l with
    | nil =>
      rw [List.nil_append]
      rfl
    | cons t ts ih =>
      rw [List.cons_append, followValue, followValue]
      by_cases ht : (t.name == origin) = true
      · rw [if_pos ht, if_pos ht, ih]
      · rw [if_neg ht, if_neg ht]
        by_cases hv : tableHasValue tableMap t.name v = true
        · rw [if_pos hv, if_pos hv]
          rfl
        · rw [if_neg hv, if_neg hv, ih]
  refine ⟨hmain tables, ?_, happ tables⟩
  rw [hmain tables, firstMatchSpec]
  simp only [Option.map_eq_none', List.find?_eq_none, List.mem_filter,
    Bool.not_eq_true', beq_eq_false_iff_ne, ne_eq, and_imp, Bool.not_eq_true]

/-- C8 (amended): the part_000 display fetch (`selectTable`, rowLimit 5000)
retrieves exactly min(rowCount, 5000) rows of an honest table, hence at most the
5000-row ceiling; the index.mjs display fetch (`showTable`) has no ceiling and
retrieves all rows. -/
theorem c8_display_ceiling (t : TableHandle) (rows : List Row)
    (h : TableHandle.Honest t rows) :
    (∃ res, selectTableDisplayRows t = some res ∧ res.length = min 5000 rows.length ∧
      res.length ≤ 5000) ∧
    showTableDisplayRows t = some rows := by
  obtain ⟨hrc, hall, hget⟩ := h
  refine ⟨⟨(rows.drop 0).take 5000, hget 0 5000, ?_, ?_⟩, hall⟩
  · simp [List.length_take]
  · simp [List.length_take]

/-- C8 witness: the concrete honest three-row table. -/
theorem c8_display_ceiling_witness :
    (∃ res, selectTableDisplayRows wTable3 = some res ∧
      res.length = min 5000 wRows3.length ∧ res.length ≤ 5000) ∧
    showTableDisplayRows wTable3 = some wRows3 :=
  c8_display_ceiling wTable3 wRows3 ⟨rfl, rfl, fun _ _ => rfl⟩

/-- C8 counterexample: the index.mjs display fetch on a 50000-row table returns
all 50000 rows, not at most a 5000-row ceiling — `showTable` calls `t.getData()`
with no row limit. -/
theorem c8_display_counterexample :
    showTableDisplayRows bigTable = some bigRows ∧ bigRows.length = 50000 ∧
    5000 < 50000 :=
  ⟨rfl, by simp only [bigRows, List.length_replicate], by norm_num⟩

/-- C9 (amended): at the index.mjs drop boundary a single dropped file is loaded
exactly when its lowercased name ends in `.mdb` or `.accdb`, and otherwise
rejected with the transient invalid indicator and no state change; the part_000
drop handler performs no such check and loads any dropped file. -/
theorem c9_drop_boundary (st : AppState) (name : String) (bytes : List Nat) :
    (isAllowedFileName name =
      (lowerEndsWith name ".mdb" || lowerEndsWith name ".accdb")) ∧
    (isAllowedFileName name = true →
      windowDropIndex st name bytes = ({ loaded := some (name, bytes) }, false)) ∧
    (isAllowedFileName name = false → windowDropIndex st name bytes = (st, true)) ∧
    windowDropPart0 st name bytes = ({ loaded := some (name, bytes) }, false) := by
  refine ⟨?_, ?_, ?_, rfl⟩
  · rw [isAllowedFileName]
    by_cases h0 : name = ""
    · subst h0
      rw [if_pos rfl]
      decide
    · rw [if_neg h0]
  · intro ha
    rw [windowDropIndex, if_pos ha]
  · intro ha
    rw [windowDropIndex, if_neg (by simp [ha])]

/-- C9 counterexample: the part_000 drop handler loads a dropped `.txt` file —
a name the extension filter rejects — changing the loaded state with no invalid
indicator. -/
theorem c9_drop_counterexample :
    isAllowedFileName "notes.txt" = false ∧
    windowDropPart0 { loaded := none } "notes.txt" [7] =
      ({ loaded := some ("notes.txt", [7]) }, false) :=
  ⟨by decide, rfl⟩
